import Mathlib

/-!
Verification of the asynchronous-coordination core of the ferrum-ts library
(src/async/utils.ts and src/async/result.ts) against its design
specification.

Modelling conventions (shallow embedding):
* The two-variant success/failure container `Result<T,E>` of
  src/types/result.ts is the inductive `Ferrum.Result`.
* A promise is modelled by its settlement: `AsyncOutcome T` records the
  (virtual, fake-clock) time at which it settles and its outcome, where
  `Except.ok v` is fulfilment with `v` and `Except.error e` is rejection
  with reason `e`.  Rejection reasons and thrown values are modelled as
  `String`, matching the `Result<_, string>` signatures of the source and
  the fact that the source passes them through `String(error)`.
* `Promise.race` ties are resolved in the theorems by strict-inequality
  hypotheses, so the embedding's tie-break convention is never load-bearing.
-/

deriving instance DecidableEq for Except

namespace Ferrum

/-- Result type of src/types/result.ts: `{kind:"ok",value}` or
`{kind:"error",error}`. -/
inductive Result (T : Type) (E : Type) where
  | ok (value : T)
  | error (err : E)
deriving DecidableEq, Repr

/-- Settlement of a promise: the time at which it settles and whether it
fulfils (`Except.ok`) or rejects (`Except.error`). -/
structure AsyncOutcome (T : Type) where
  settleTime : Nat
  outcome : Except String T
deriving DecidableEq, Repr

/-! ## TimeoutRace -/

/-- Embedding of `with_timeout` from src/async/utils.ts (lines 64-79):
`Promise.race([promise, sleep(timeoutMs).then(throw Error("timeout"))])`
inside `try/catch`.  If the promise settles strictly first and fulfils, the
value is returned as `ok`; every throw reaching the catch — the timer's
synthetic error, but also the promise's own rejection — is returned as
`error "timeout"`. -/
def with_timeout (p : AsyncOutcome T) (timeoutMs : Nat) : Result T String :=
  if p.settleTime < timeoutMs then
    match p.outcome with
    | .ok v => .ok v
    | .error _ => .error "timeout"
  else .error "timeout"

/-- Embedding of `AsyncResult.with_timeout` from src/async/result.ts
(lines 74-82): the operation already yields a `Result`, the timer resolves
to `Result.error "timeout"`, and there is no catch, so an operation
rejection propagates (modelled by the outer `Except.error`). -/
def asyncResult_with_timeout (op : AsyncOutcome (Result T String))
    (timeoutMs : Nat) : Except String (Result T String) :=
  if op.settleTime < timeoutMs then
    match op.outcome with
    | .ok r => .ok r
    | .error f => .error f
  else .ok (.error "timeout")

/-! ## CancelableWrapper -/

/-- Embedding of `make_cancelable` from src/async/utils.ts (lines 84-107).
`cancelTime` is the (virtual) time at which `cancel()` is invoked, `none`
when it never is; the `isCanceled` flag is read when the underlying promise
settles.  The wrapper's executor only calls `resolve` when the flag is
still false: with the flag set, neither the `then` nor the `catch` branch
resolves, so the wrapped promise never settles (result `none`).  When not
canceled, fulfilment resolves `ok value` and rejection resolves
`error "canceled"`. -/
def make_cancelable (op : AsyncOutcome T) (cancelTime : Option Nat) :
    Option (Result T String) :=
  let isCanceled : Bool :=
    match cancelTime with
    | some tc => decide (tc < op.settleTime)
    | none => false
  if isCanceled then none
  else
    match op.outcome with
    | .ok v => some (.ok v)
    | .error _ => some (.error "canceled")

/-! ## DeferredHandle -/

/-- An external call to the `resolve` or `reject` function handed out by
`create_deferred` (src/async/utils.ts lines 112-126). -/
inductive DefEvent (T : Type) where
  | resolveE (v : T)
  | rejectE (e : String)
deriving DecidableEq, Repr

/-- One settlement step of the underlying `Promise` executor: the first
`resolve`/`reject` call fixes the state, every later call is a no-op (it
neither raises nor changes the settled value). -/
def promiseStep (s : Option (Except String T)) (ev : DefEvent T) :
    Option (Except String T) :=
  match s, ev with
  | none, .resolveE v => some (.ok v)
  | none, .rejectE e => some (.error e)
  | some r, _ => some r

/-- Embedding of the observable state of `create_deferred`: the settled
value of its promise after a sequence of external `resolve`/`reject` calls,
`none` while still pending. -/
def deferred_settle (evs : List (DefEvent T)) : Option (Except String T) :=
  evs.foldl promiseStep none

/-! ## DelayPolicy -/

/-- Configuration record `Required<RetryConfig>` of src/async/utils.ts
(lines 14-36).  Durations and the factor are rationals, modelling the
real-number arithmetic of the source. -/
structure RetryConfigR where
  maxAttempts : Nat
  initialDelay : Rat
  maxDelay : Rat
  backoffFactor : Rat
  jitter : Bool
deriving DecidableEq, Repr

/-- Embedding of `add_jitter` from src/async/utils.ts (lines 41-45) with
the random source made explicit: `rand` models the `Math.random()` draw in
`[0,1)`; `jitterFactor = 0.25`, `randomFactor = 1 - 0.25 + rand * 0.25 * 2`,
and the product is floored. -/
def add_jitter (delay : Rat) (rand : Rat) : Int :=
  Int.floor (delay * (1 - 1/4 + rand * (1/4) * 2))

/-- Embedding of `calculateDelay` from src/async/utils.ts (lines 50-59):
`min(initialDelay * backoffFactor ^ attempt, maxDelay)`, jittered when
`cfg.jitter` is set. -/
def calculateDelay (attempt : Nat) (cfg : RetryConfigR) (rand : Rat) : Rat :=
  let delay := min (cfg.initialDelay * cfg.backoffFactor ^ attempt) cfg.maxDelay
  if cfg.jitter then ((add_jitter delay rand : Int) : Rat) else delay

/-! ## RetryLoop -/

/-- Options record of `AsyncResult.retry` (src/async/result.ts lines
34-46), with the defaults already applied (`Required` view). -/
structure RetryOptions where
  max_attempts : Nat
  initial_delay : Rat
  max_delay : Rat
  backoff_factor : Rat
deriving DecidableEq, Repr

/-- Loop body of `AsyncResult.retry` (src/async/result.ts lines 48-62).
The operation is modelled per invocation index: `op i` is what the promise
of the `i`-th invocation settles to — `Except.error f` a rejection (which
the source does NOT catch, so it propagates out of `retry`), `Except.ok r`
a returned `Result`.  `fuel = max_attempts - attempt` drives the `while`
guard; the pair's second component counts invocations performed.  The
post-loop `Result.error "max_attempts_reached"` is the (unreachable for
`max_attempts ≥ 1`) synthetic error of line 62. -/
def retryGo (op : Nat → Except String (Result T String)) (opts : RetryOptions) :
    Nat → Nat → Rat → Nat → Except String (Result T String) × Nat
  | 0, _, _, calls => (.ok (.error "max_attempts_reached"), calls)
  | fuel + 1, attempt, delay, calls =>
    match op attempt with
    | .error f => (.error f, calls + 1)
    | .ok r =>
      match r with
      | .ok v => (.ok (.ok v), calls + 1)
      | .error e =>
        if attempt + 1 = opts.max_attempts then (.ok (.error e), calls + 1)
        else
          retryGo op opts fuel (attempt + 1)
            (min (delay * opts.backoff_factor) opts.max_delay) (calls + 1)

/-- Embedding of `AsyncResult.retry`: runs the loop from attempt 0 with the
initial delay; returns the settlement of the `retry` promise (an outer
`Except.error` is `retry` itself rejecting) together with the number of
invocations of the operation. -/
def retry (op : Nat → Except String (Result T String)) (opts : RetryOptions) :
    Except String (Result T String) × Nat :=
  retryGo op opts opts.max_attempts 0 opts.initial_delay 0

/-! ## Sequencer -/

/-- Loop of `sequence` from src/async/utils.ts (lines 131-145).  Each list
element is the settlement of the corresponding operation's promise
(`Except.ok v` fulfils with `v`, `Except.error e` rejects with reason `e`;
the catch turns a rejection into `Result.error (String(e))`, the identity
on our string reasons).  The accumulator collects fulfilled values; the
second component counts how many operations were invoked. -/
def sequenceGo : List (Except String α) → List α → Nat →
    Result (List α) String × Nat
  | [], acc, calls => (.ok acc.reverse, calls)
  | op :: rest, acc, calls =>
    match op with
    | .ok v => sequenceGo rest (v :: acc) (calls + 1)
    | .error e => (.error e, calls + 1)

/-- Embedding of `sequence` together with its invocation count. -/
def sequenceTrace (ops : List (Except String α)) :
    Result (List α) String × Nat :=
  sequenceGo ops [] 0

/-- Embedding of `sequence` (result only). -/
def sequence (ops : List (Except String α)) : Result (List α) String :=
  (sequenceTrace ops).1

/-! ## BoundedFanOut

`parallel` (src/async/utils.ts lines 150-180) starts
`k = min(concurrency, operations.length)` copies of `run_next`; each copy
claims `index = currentIndex++`, returns if `index >= operations.length`,
otherwise runs `operations[index]`, stores the fulfilment value — or, in
the catch, the rejection reason — into `results[index]`, and recurses.
The single-threaded cooperative scheduler interleaves the copies only at
the `await`, so a step of the model is: one busy worker's awaited
operation settles; the worker writes its slot and immediately claims the
next index (incrementing the cursor unconditionally, as
`currentIndex++` does) or retires when the claimed index is past the end.
An arbitrary schedule (list of worker indices, in settlement order) makes
the completion-order nondeterminism explicit.  Each list element of `ops`
is the settlement of that operation's promise; a slot therefore holds the
operation's own outcome: its value on fulfilment, its rejection reason on
rejection (the source stores the caught error object into the typed slot
via `error as T`). -/

/-- Scheduler state of one `parallel` call: the shared cursor, each
worker's claim (`some i` busy on operation `i`, `none` retired), and the
results array (`none` = still unset slot). -/
structure FanState (α : Type) where
  cursor : Nat
  workers : List (Option Nat)
  results : List (Option (Except String α))
deriving DecidableEq, Repr

/-- Outcome written into slot `i`: the settlement of operation `i`. -/
def slotOf (ops : List (Except String α)) (i : Nat) : Except String α :=
  (ops.get? i).getD (.error "out_of_range")

/-- Initial state: the `k = min limit n` initial `run_next` calls run
synchronously up to their first `await`, so worker `j` claims index `j`
and the cursor is `k`; all slots are unset. -/
def initState (ops : List (Except String α)) (limit : Nat) : FanState α :=
  ⟨min limit ops.length, (List.range (min limit ops.length)).map some,
    List.replicate ops.length none⟩

/-- One scheduler step: worker `w`'s awaited operation settles.  The worker
writes its slot, then re-enters `run_next`: it claims `index = cursor`
(the cursor increments unconditionally) and stays busy when
`index < ops.length`, otherwise retires.  Scheduling a retired or
nonexistent worker is a no-op. -/
def step (ops : List (Except String α)) (s : FanState α) (w : Nat) :
    FanState α :=
  match s.workers.get? w with
  | some (some i) =>
    let results := s.results.set i (some (slotOf ops i))
    let workers :=
      if s.cursor < ops.length then s.workers.set w (some s.cursor)
      else s.workers.set w none
    ⟨s.cursor + 1, workers, results⟩
  | _ => s

/-- Run a schedule (list of settlement events, each naming the worker
whose operation settles) from a state. -/
def runSched (ops : List (Except String α)) (s : FanState α)
    (sched : List Nat) : FanState α :=
  sched.foldl (step ops) s

/-- The `Promise.all` in `parallel` resolves exactly when every worker has
retired. -/
def isDone (s : FanState α) : Bool :=
  s.workers.all (fun o => o.isNone)

/-- Number of operations in flight: workers currently busy on a claim. -/
def busyCount (s : FanState α) : Nat :=
  s.workers.countP (fun o => o.isSome)

/-- Embedding of `parallel`: run the schedule from the initial state; when
every worker has retired, `Promise.all` resolves and the call returns
`safe.ok(results)` (the top-level catch is unreachable: `run_next` never
rejects).  While some worker is still awaiting, the call is pending
(`none`).  The `getD` default is never hit on a completed run. -/
def parallel (ops : List (Except String α)) (limit : Nat)
    (sched : List Nat) : Option (Result (List (Except String α)) String) :=
  let s := runSched ops (initState ops limit) sched
  if isDone s then
    some (.ok (s.results.map (fun o => o.getD (.error "unset"))))
  else none

/-- Scheduler invariant of one `parallel` call: results array keeps its
size; every claim is below the cursor and in range; no two workers hold the
same claim; every claimed-and-finished slot holds its operation's outcome;
and a worker can only have retired once the cursor passed the end of the
list. -/
structure Inv (ops : List (Except String α)) (s : FanState α) : Prop where
  res_len : s.results.length = ops.length
  w_lt : ∀ (w i : Nat), s.workers[w]? = some (some i) →
    i < s.cursor ∧ i < ops.length
  w_inj : ∀ (w w2 i : Nat), s.workers[w]? = some (some i) →
    s.workers[w2]? = some (some i) → w = w2
  res_done : ∀ j : Nat, j < s.cursor → j < ops.length →
    (∀ w : Nat, s.workers[w]? ≠ some (some j)) →
    s.results[j]? = some (some (slotOf ops j))
  retired_cursor : (∃ w : Nat, s.workers[w]? = some none) →
    ops.length ≤ s.cursor

end Ferrum

namespace Ferrum

/-! ## Theorems -/

/-- Helper: an index with a `some` lookup is within bounds. -/
theorem lt_length_of_getElem? {l : List α} {i : Nat} {a : α}
    (h : l[i]? = some a) : i < l.length := by
  by_cases hh : i < l.length
  · exact hh
  · rw [List.getElem?_eq_none_iff.mpr (by omega)] at h; cases h

/-- Helper: a `some` lookup yields a member of the list. -/
theorem mem_of_getElem? {l : List α} {i : Nat} {a : α}
    (h : l[i]? = some a) : a ∈ l := by
  have h2 : i < l.length := lt_length_of_getElem? h
  rw [List.getElem?_eq_getElem h2] at h
  injection h with h3
  rw [← h3]
  exact List.getElem_mem h2

/-- Helper: worker lookups in the initial fan-out state. -/
theorem initState_workers_getElem (ops : List (Except String α))
    (limit w : Nat) :
    (initState ops limit).workers[w]? =
      if w < min limit ops.length then some (some w) else none := by
  by_cases h : w < min limit ops.length
  · simp [initState, List.getElem?_map, List.getElem?_range h, h]
  · have hnone : (List.range (min limit ops.length))[w]? = none :=
      List.getElem?_eq_none_iff.mpr (by simpa using Nat.not_lt.mp h)
    simp [initState, List.getElem?_map, hnone, h]

/-- Helper: the initial fan-out state satisfies the scheduler invariant. -/
theorem initState_inv (ops : List (Except String α)) (limit : Nat) :
    Inv ops (initState ops limit) := by
  refine ⟨?_, ?_, ?_, ?_, ?_⟩
  · simp [initState]
  · intro w i h
    rw [initState_workers_getElem] at h
    by_cases hw : w < min limit ops.length
    · rw [if_pos hw] at h
      have hiw : i = w := by simpa using h.symm
      subst hiw
      refine ⟨?_, lt_of_lt_of_le hw (min_le_right _ _)⟩
      simpa [initState] using hw
    · rw [if_neg hw] at h; cases h
  · intro w w2 i h h2
    rw [initState_workers_getElem] at h h2
    by_cases hw : w < min limit ops.length
    · by_cases hw2 : w2 < min limit ops.length
      · rw [if_pos hw] at h
        rw [if_pos hw2] at h2
        have e1 : i = w := by simpa using h.symm
        have e2 : i = w2 := by simpa using h2.symm
        omega
      · rw [if_neg hw2] at h2; cases h2
    · rw [if_neg hw] at h; cases h
  · intro j hj hjn hnb
    exfalso
    have hjk : j < min limit ops.length := by simpa [initState] using hj
    apply hnb j
    rw [initState_workers_getElem, if_pos hjk]
  · rintro ⟨w, hw⟩
    rw [initState_workers_getElem] at hw
    by_cases h : w < min limit ops.length
    · rw [if_pos h] at hw
      exact absurd hw (by simp)
    · rw [if_neg h] at hw; cases hw

/-- Helper: one scheduler step preserves the invariant. -/
theorem step_inv (ops : List (Except String α)) (s : FanState α) (w : Nat)
    (hInv : Inv ops s) : Inv ops (step ops s w) := by
  cases hgw : s.workers[w]? with
  | none => simpa [step, hgw] using hInv
  | some ow =>
    cases ow with
    | none => simpa [step, hgw] using hInv
    | some i =>
      obtain ⟨hi_cur, hi_len⟩ := hInv.w_lt w i hgw
      have hwlen : w < s.workers.length := lt_length_of_getElem? hgw
      have hilen : i < s.results.length := by rw [hInv.res_len]; exact hi_len
      by_cases hc : s.cursor < ops.length
      · -- the worker writes slot i and claims index s.cursor
        have hstep : step ops s w =
            ⟨s.cursor + 1, s.workers.set w (some s.cursor),
              s.results.set i (some (slotOf ops i))⟩ := by
          simp [step, hgw, hc]
        rw [hstep]
        refine ⟨?_, ?_, ?_, ?_, ?_⟩
        · simpa using hInv.res_len
        · intro w2 j h2
          by_cases hw2 : w2 = w
          · subst hw2
            rw [List.getElem?_set_eq_of_lt _ hwlen] at h2
            have hj : j = s.cursor := by simpa using h2.symm
            subst hj
            exact ⟨Nat.lt_succ_self _, hc⟩
          · rw [List.getElem?_set_ne (fun hh => hw2 hh.symm)] at h2
            obtain ⟨ha, hb⟩ := hInv.w_lt w2 j h2
            exact ⟨Nat.lt_succ_of_lt ha, hb⟩
        · intro w2 w3 j h2 h3
          by_cases hw2 : w2 = w <;> by_cases hw3 : w3 = w
          · rw [hw2, hw3]
          · subst hw2
            rw [List.getElem?_set_eq_of_lt _ hwlen] at h2
            rw [List.getElem?_set_ne (fun hh => hw3 hh.symm)] at h3
            have hj : j = s.cursor := by simpa using h2.symm
            subst hj
            exact absurd (hInv.w_lt w3 _ h3).1 (by omega)
          · subst hw3
            rw [List.getElem?_set_eq_of_lt _ hwlen] at h3
            rw [List.getElem?_set_ne (fun hh => hw2 hh.symm)] at h2
            have hj : j = s.cursor := by simpa using h3.symm
            subst hj
            exact absurd (hInv.w_lt w2 _ h2).1 (by omega)
          · rw [List.getElem?_set_ne (fun hh => hw2 hh.symm)] at h2
            rw [List.getElem?_set_ne (fun hh => hw3 hh.symm)] at h3
            exact hInv.w_inj w2 w3 j h2 h3
        · intro j hj hjn hnb
          by_cases hji : j = i
          · subst hji
            exact List.getElem?_set_eq_of_lt _ hilen
          · rw [List.getElem?_set_ne (fun hh => hji hh.symm)]
            have hjc : j ≠ s.cursor := by
              intro hj2
              apply hnb w
              rw [List.getElem?_set_eq_of_lt _ hwlen, hj2]
            have hnb2 : ∀ w2 : Nat, s.workers[w2]? ≠ some (some j) := by
              intro w2 hbusy
              by_cases hw2 : w2 = w
              · subst hw2
                rw [hgw] at hbusy
                have hji2 : j = i := by simpa using hbusy.symm
                exact hji hji2
              · apply hnb w2
                rw [List.getElem?_set_ne (fun hh => hw2 hh.symm)]
                exact hbusy
            have hj2 : j < s.cursor + 1 := hj
            exact hInv.res_done j (by omega) hjn hnb2
        · rintro ⟨w2, hw2⟩
          by_cases hww : w2 = w
          · subst hww
            rw [List.getElem?_set_eq_of_lt _ hwlen] at hw2
            exact absurd hw2 (by simp)
          · rw [List.getElem?_set_ne (fun hh => hww hh.symm)] at hw2
            exact Nat.le_succ_of_le (hInv.retired_cursor ⟨w2, hw2⟩)
      · -- the cursor has passed the end: the worker writes slot i and retires
        have hstep : step ops s w =
            ⟨s.cursor + 1, s.workers.set w none,
              s.results.set i (some (slotOf ops i))⟩ := by
          simp [step, hgw, hc]
        rw [hstep]
        have hnc : ops.length ≤ s.cursor := Nat.not_lt.mp hc
        refine ⟨?_, ?_, ?_, ?_, ?_⟩
        · simpa using hInv.res_len
        · intro w2 j h2
          by_cases hw2 : w2 = w
          · subst hw2
            rw [List.getElem?_set_eq_of_lt _ hwlen] at h2
            exact absurd h2 (by simp)
          · rw [List.getElem?_set_ne (fun hh => hw2 hh.symm)] at h2
            obtain ⟨ha, hb⟩ := hInv.w_lt w2 j h2
            exact ⟨Nat.lt_succ_of_lt ha, hb⟩
        · intro w2 w3 j h2 h3
          by_cases hw2 : w2 = w
          · subst hw2
            rw [List.getElem?_set_eq_of_lt _ hwlen] at h2
            exact absurd h2 (by simp)
          · by_cases hw3 : w3 = w
            · subst hw3
              rw [List.getElem?_set_eq_of_lt _ hwlen] at h3
              exact absurd h3 (by simp)
            · rw [List.getElem?_set_ne (fun hh => hw2 hh.symm)] at h2
              rw [List.getElem?_set_ne (fun hh => hw3 hh.symm)] at h3
              exact hInv.w_inj w2 w3 j h2 h3
        · intro j hj hjn hnb
          by_cases hji : j = i
          · subst hji
            exact List.getElem?_set_eq_of_lt _ hilen
          · rw [List.getElem?_set_ne (fun hh => hji hh.symm)]
            have hnb2 : ∀ w2 : Nat, s.workers[w2]? ≠ some (some j) := by
              intro w2 hbusy
              by_cases hw2 : w2 = w
              · subst hw2
                rw [hgw] at hbusy
                have hji2 : j = i := by simpa using hbusy.symm
                exact hji hji2
              · apply hnb w2
                rw [List.getElem?_set_ne (fun hh => hw2 hh.symm)]
                exact hbusy
            exact hInv.res_done j (by omega) hjn hnb2
        · intro _
          exact Nat.le_succ_of_le hnc

/-- Helper: one scheduler step preserves the number of workers. -/
theorem step_workers_length (ops : List (Except String α)) (s : FanState α)
    (w : Nat) : (step ops s w).workers.length = s.workers.length := by
  cases hgw : s.workers[w]? with
  | none => simp [step, hgw]
  | some ow =>
    cases ow with
    | none => simp [step, hgw]
    | some i =>
      by_cases hc : s.cursor < ops.length <;> simp [step, hgw, hc]

/-- Helper: running a schedule preserves the invariant. -/
theorem runSched_inv (ops : List (Except String α)) :
    ∀ (sched : List Nat) (s : FanState α), Inv ops s →
      Inv ops (runSched ops s sched) := by
  intro sched
  induction sched with
  | nil => intro s h; exact h
  | cons w rest ih => intro s h; exact ih (step ops s w) (step_inv ops s w h)

/-- Helper: running a schedule preserves the number of workers. -/
theorem runSched_workers_length (ops : List (Except String α)) :
    ∀ (sched : List Nat) (s : FanState α),
      (runSched ops s sched).workers.length = s.workers.length := by
  intro sched
  induction sched with
  | nil => intro s; rfl
  | cons w rest ih =>
    intro s
    calc (runSched ops (step ops s w) rest).workers.length
        = (step ops s w).workers.length := ih (step ops s w)
      _ = s.workers.length := step_workers_length ops s w

/-- Helper: in a completed run that had at least one worker (or no
operations), every slot holds its operation's settled outcome. -/
theorem done_results (ops : List (Except String α)) (s : FanState α)
    (hInv : Inv ops s) (hd : isDone s = true)
    (hne : 1 ≤ s.workers.length ∨ ops.length = 0) :
    s.results = ops.map some := by
  have hall := List.all_eq_true.mp hd
  have hnb : ∀ (w j : Nat), s.workers[w]? ≠ some (some j) := by
    intro w j hwj
    have hmem := mem_of_getElem? hwj
    have := hall (some j) hmem
    simp at this
  have hcur : ops.length ≤ s.cursor := by
    rcases hne with h1 | h0
    · have h2 : 0 < s.workers.length := h1
      have ha : s.workers[0]? = some s.workers[0] :=
        List.getElem?_eq_getElem h2
      cases haw : s.workers[0] with
      | none => exact hInv.retired_cursor ⟨0, by rw [ha, haw]⟩
      | some x =>
        exfalso
        exact hnb 0 x (by rw [ha, haw])
    · omega
  apply List.ext_getElem?
  intro j
  by_cases hj : j < ops.length
  · have hr := hInv.res_done j (lt_of_lt_of_le hj hcur) hj (fun w => hnb w j)
    rw [hr, List.getElem?_map, List.getElem?_eq_getElem hj]
    simp [slotOf, List.getElem?_eq_getElem hj]
  · have h1 : s.results[j]? = none :=
      List.getElem?_eq_none_iff.mpr (by rw [hInv.res_len]; omega)
    have h2 : (ops.map some)[j]? = none :=
      List.getElem?_eq_none_iff.mpr (by simpa using Nat.not_lt.mp hj)
    rw [h1, h2]

/-- Helper: whenever a `parallel` call completes (its `Promise.all`
resolves), it returns a top-level success whose slot list is exactly the
list of the operations' own settled outcomes, in input order. -/
theorem parallel_complete (ops : List (Except String α)) (limit : Nat)
    (sched : List Nat) (r : Result (List (Except String α)) String)
    (hl : 1 ≤ limit) (h : parallel ops limit sched = some r) :
    r = Result.ok ops := by
  have hInv := runSched_inv ops sched (initState ops limit)
    (initState_inv ops limit)
  by_cases hd : isDone (runSched ops (initState ops limit) sched) = true
  · have hlen : (runSched ops (initState ops limit) sched).workers.length
        = min limit ops.length := by
      rw [runSched_workers_length]
      simp [initState]
    have hne : 1 ≤ (runSched ops (initState ops limit) sched).workers.length
        ∨ ops.length = 0 := by
      rw [hlen]; omega
    have hres := done_results ops _ hInv hd hne
    have hmap : (ops.map some).map
        (fun o => o.getD (Except.error "unset")) = ops := by
      rw [List.map_map]
      have hcomp : ((fun o => o.getD (Except.error "unset")) ∘ some :
          Except String α → Except String α) = id := by
        funext o
        rfl
      rw [hcomp, List.map_id]
    change (if isDone (runSched ops (initState ops limit) sched) then
        some (Result.ok
          ((runSched ops (initState ops limit) sched).results.map
            (fun o => o.getD (Except.error "unset"))))
      else none) = some r at h
    rw [if_pos hd, hres, hmap] at h
    exact (Option.some.inj h).symm
  · change (if isDone (runSched ops (initState ops limit) sched) then
        some (Result.ok
          ((runSched ops (initState ops limit) sched).results.map
            (fun o => o.getD (Except.error "unset"))))
      else none) = some r at h
    rw [if_neg hd] at h
    cases h

/-- Helper: `retry` against an operation whose every invocation returns a
failure `Result` walks the whole remaining fuel and hands back the failure
of the final invocation. -/
theorem retryGo_allFail (errs : Nat → String) (opts : RetryOptions) :
    ∀ (fuel attempt : Nat) (delay : Rat) (calls : Nat), 1 ≤ fuel →
      attempt + fuel = opts.max_attempts →
      retryGo (T := T) (fun i => Except.ok (Result.error (errs i))) opts
          fuel attempt delay calls
        = (Except.ok (Result.error (errs (opts.max_attempts - 1))),
            calls + fuel) := by
  intro fuel
  induction fuel with
  | zero => intro attempt delay calls h1 _; exact absurd h1 (by decide)
  | succ f ih =>
    intro attempt delay calls _ hsum
    by_cases hlast : attempt + 1 = opts.max_attempts
    · have hf : f = 0 := by omega
      subst hf
      have ha : opts.max_attempts - 1 = attempt := by omega
      simp [retryGo, hlast, ha]
    · have hf : 1 ≤ f := by omega
      have hrec := ih (attempt + 1)
        (min (delay * opts.backoff_factor) opts.max_delay) (calls + 1) hf
        (by omega)
      simp only [retryGo, hlast, if_false, hrec]
      exact congrArg _ (by omega)

/-- C1: for every RetryConfig and every operation that fails on all of its
invocations, retry invokes the operation exactly max_attempts times and
returns the failure value produced by the final invocation itself,
unchanged — not the synthetic exhaustion error of the post-loop line. -/
theorem retry_exhausts_and_returns_last_failure (errs : Nat → String)
    (opts : RetryOptions) (h : 1 ≤ opts.max_attempts) :
    retry (T := T) (fun i => Except.ok (Result.error (errs i))) opts
      = (Except.ok (Result.error (errs (opts.max_attempts - 1))),
          opts.max_attempts) := by
  have := retryGo_allFail (T := T) errs opts opts.max_attempts 0
    opts.initial_delay 0 h (by omega)
  simpa [retry] using this

/-- Witness for C1: with max_attempts = 3 and an always-failing operation,
retry performs 3 invocations and returns the operation's failure value. -/
theorem retry_exhausts_and_returns_last_failure_witness :
    1 ≤ (⟨3, 1, 10, 2⟩ : RetryOptions).max_attempts ∧
    retry (T := Nat) (fun _ => Except.ok (Result.error "err")) ⟨3, 1, 10, 2⟩
      = (Except.ok (Result.error "err"), 3) :=
  ⟨by decide,
    retry_exhausts_and_returns_last_failure (fun _ => "err") ⟨3, 1, 10, 2⟩
      (by decide)⟩

/-- Helper: `retry` against an operation that fails on invocations `0..k-1`
and succeeds on invocation `k` reaches the success after exactly the
remaining `k - attempt + 1` invocations. -/
theorem retryGo_failThenSucceed (errs : Nat → String) (v : T) (k : Nat)
    (opts : RetryOptions) :
    ∀ (fuel attempt : Nat) (delay : Rat) (calls : Nat),
      attempt + fuel = opts.max_attempts → attempt ≤ k →
      k < opts.max_attempts →
      retryGo
          (fun i =>
            Except.ok (if i < k then Result.error (errs i) else Result.ok v))
          opts fuel attempt delay calls
        = (Except.ok (Result.ok v), calls + (k - attempt) + 1) := by
  intro fuel
  induction fuel with
  | zero => intro attempt delay calls hsum hak hk; omega
  | succ f ih =>
    intro attempt delay calls hsum hak hk
    by_cases hlt : attempt < k
    · have hne : ¬ attempt + 1 = opts.max_attempts := by omega
      have hrec := ih (attempt + 1)
        (min (delay * opts.backoff_factor) opts.max_delay) (calls + 1)
        (by omega) (by omega) hk
      simp only [retryGo, hlt, if_true, hne, if_false, hrec]
      exact congrArg _ (by omega)
    · have heq : attempt = k := by omega
      subst heq
      simp [retryGo]

/-- C9: for every RetryConfig with max_attempts = n and every operation
failing on exactly its first k invocations (k < n) and succeeding on
invocation k+1, retry invokes the operation exactly k+1 times and returns
that success. -/
theorem retry_succeeds_after_k_failures (errs : Nat → String) (v : T)
    (k : Nat) (opts : RetryOptions) (h : k < opts.max_attempts) :
    retry
        (fun i =>
          Except.ok (if i < k then Result.error (errs i) else Result.ok v))
        opts
      = (Except.ok (Result.ok v), k + 1) := by
  have := retryGo_failThenSucceed errs v k opts opts.max_attempts 0
    opts.initial_delay 0 (by omega) (by omega) h
  simpa [retry] using this

/-- Witness for C9: two failures then a success under max_attempts = 5
gives the success after exactly 3 invocations. -/
theorem retry_succeeds_after_k_failures_witness :
    2 < (⟨5, 1, 10, 2⟩ : RetryOptions).max_attempts ∧
    retry
        (fun i =>
          Except.ok (if i < 2 then Result.error "f" else Result.ok (42 : Nat)))
        ⟨5, 1, 10, 2⟩
      = (Except.ok (Result.ok 42), 3) :=
  ⟨by decide,
    retry_succeeds_after_k_failures (fun _ => "f") 42 2 ⟨5, 1, 10, 2⟩
      (by decide)⟩

/-- C6: for every [op1, op2, op3] with op1 succeeding and op2 failing,
sequence stops at the first failure: exactly two operations are invoked —
op3 never — and the returned failure equals op2's own failure. -/
theorem sequence_fail_fast_second_op (v1 : α) (e : String)
    (op3 : Except String α) :
    sequenceTrace [Except.ok v1, Except.error e, op3] = (Result.error e, 2) ∧
    sequence [Except.ok v1, Except.error e, op3] = Result.error e :=
  ⟨rfl, rfl⟩

/-- Helper: once the deferred promise is settled, every further
`resolve`/`reject` call leaves the settled value unchanged. -/
theorem promiseStep_absorb (r : Except String T) :
    ∀ evs : List (DefEvent T), evs.foldl promiseStep (some r) = some r := by
  intro evs
  induction evs with
  | nil => rfl
  | cons ev rest ih =>
    have hstep : promiseStep (some r) ev = some r := by cases ev <;> rfl
    calc (ev :: rest).foldl promiseStep (some r)
        = rest.foldl promiseStep (promiseStep (some r) ev) := rfl
      _ = rest.foldl promiseStep (some r) := by rw [hstep]
      _ = some r := ih

/-- C10: for every deferred handle, the first call to resolve or reject
settles the handle and every subsequent call to either function (modelled
by the arbitrary tail of later events) is a no-op that neither raises nor
changes the settled value; in particular a first resolve wins over
everything after it, and a first reject likewise. -/
theorem deferred_first_settlement_wins (v : T) (rest : List (DefEvent T))
    (e : String) (rest2 : List (DefEvent T)) :
    deferred_settle (DefEvent.resolveE v :: rest) = some (Except.ok v) ∧
    deferred_settle (DefEvent.rejectE e :: rest2) = some (Except.error e) :=
  ⟨promiseStep_absorb (Except.ok v) rest,
    promiseStep_absorb (Except.error e) rest2⟩

/-- C2 counterexample: an operation that settles strictly before the
deadline (time 0 < 100) with its own failure "boom" is not passed through:
with_timeout reports the distinguished "timeout" failure instead of the
operation's own failure value. -/
theorem with_timeout_pre_deadline_rejection_cex :
    with_timeout (T := Nat) ⟨0, Except.error "boom"⟩ 100
        = Result.error "timeout" ∧
    (Result.error "timeout" : Result Nat String) ≠ Result.error "boom" :=
  ⟨rfl, by decide⟩

/-- C2 amended: a success settling strictly before the deadline is returned
unchanged, but utils.with_timeout collapses a pre-deadline rejection of the
operation into the same "timeout" failure as a fired timer;
AsyncResult.with_timeout returns the operation's own Result (success or
failure) unchanged when it settles strictly first and the "timeout" failure
when the timer fires first. -/
theorem with_timeout_amended_behavior (p : AsyncOutcome T)
    (q : AsyncOutcome (Result T String)) (tm : Nat) (v : T)
    (r : Result T String) :
    (p.settleTime < tm → p.outcome = Except.ok v →
      with_timeout p tm = Result.ok v) ∧
    (p.settleTime < tm → (∃ e, p.outcome = Except.error e) →
      with_timeout p tm = Result.error "timeout") ∧
    (tm ≤ p.settleTime → with_timeout p tm = Result.error "timeout") ∧
    (q.settleTime < tm → q.outcome = Except.ok r →
      asyncResult_with_timeout q tm = Except.ok r) ∧
    (tm ≤ q.settleTime →
      asyncResult_with_timeout q tm = Except.ok (Result.error "timeout")) := by
  refine ⟨?_, ?_, ?_, ?_, ?_⟩
  · intro h1 h2; simp [with_timeout, h1, h2]
  · rintro h1 ⟨e, h2⟩; simp [with_timeout, h1, h2]
  · intro h1; simp [with_timeout, Nat.not_lt.mpr h1]
  · intro h1 h2; simp [asyncResult_with_timeout, h1, h2]
  · intro h1; simp [asyncResult_with_timeout, Nat.not_lt.mpr h1]

/-- Witness for the amended C2: a success at time 5 under a 10ms deadline
is returned unchanged; an operation still pending at the 10ms deadline
yields the "timeout" failure. -/
theorem with_timeout_amended_behavior_witness :
    (5 : Nat) < 10 ∧
    with_timeout (T := Nat) ⟨5, Except.ok 7⟩ 10 = Result.ok 7 ∧
    asyncResult_with_timeout (T := Nat) ⟨20, Except.ok (Result.ok 7)⟩ 10
      = Except.ok (Result.error "timeout") :=
  ⟨by decide,
    (with_timeout_amended_behavior ⟨5, Except.ok 7⟩ ⟨20, Except.ok (Result.ok 7)⟩
        10 7 (Result.ok 7)).1 (by decide) rfl,
    (with_timeout_amended_behavior (T := Nat) ⟨5, Except.ok 7⟩
        ⟨20, Except.ok (Result.ok 7)⟩ 10 7 (Result.ok 7)).2.2.2.2 (by decide)⟩

/-- C3 counterexample: cancel at time 1, operation fulfils at time 5 — the
handle never settles (`none`), so it does not settle with the "canceled"
failure as claimed; and a rejection at time 3 with no cancellation is
delivered as the "canceled" failure, not as the operation's own failure. -/
theorem make_cancelable_cancel_then_hang_cex :
    make_cancelable (T := Nat) ⟨5, Except.ok 42⟩ (some 1) = none ∧
    make_cancelable (T := Nat) ⟨5, Except.ok 42⟩ (some 1)
      ≠ some (Result.error "canceled") ∧
    make_cancelable (T := Nat) ⟨3, Except.error "boom"⟩ none
      = some (Result.error "canceled") :=
  ⟨rfl, by decide, rfl⟩

/-- C3 amended: if cancel_fn is invoked strictly before the underlying
operation settles, the handle never settles at all (the outcome is
suppressed; no "canceled" failure is delivered); if the operation fulfils
first, its success value is delivered and a cancel_fn call at or after
settlement has no effect; if the operation rejects without a prior cancel,
the handle settles with the "canceled" failure rather than the operation's
own failure. -/
theorem make_cancelable_amended_behavior (op : AsyncOutcome T) (tc : Nat)
    (v : T) (e : String) :
    (tc < op.settleTime → make_cancelable op (some tc) = none) ∧
    (op.settleTime ≤ tc → op.outcome = Except.ok v →
      make_cancelable op (some tc) = some (Result.ok v)) ∧
    (op.outcome = Except.ok v →
      make_cancelable op none = some (Result.ok v)) ∧
    (op.outcome = Except.error e →
      make_cancelable op none = some (Result.error "canceled")) := by
  refine ⟨?_, ?_, ?_, ?_⟩
  · intro h1; simp [make_cancelable, h1]
  · intro h1 h2; simp [make_cancelable, Nat.not_lt.mpr h1, h2]
  · intro h1; simp [make_cancelable, h1]
  · intro h1; simp [make_cancelable, h1]

/-- Witness for the amended C3: cancel at 1 before settlement at 5
suppresses the outcome entirely; cancel at 9 after fulfilment at 5 leaves
the delivered success untouched. -/
theorem make_cancelable_amended_behavior_witness :
    (1 : Nat) < 5 ∧
    make_cancelable (T := Nat) ⟨5, Except.ok 42⟩ (some 1) = none ∧
    make_cancelable (T := Nat) ⟨5, Except.ok 42⟩ (some 9)
      = some (Result.ok 42) :=
  ⟨by decide,
    (make_cancelable_amended_behavior ⟨5, Except.ok 42⟩ 1 42 "e").1 (by decide),
    (make_cancelable_amended_behavior ⟨5, Except.ok 42⟩ 9 42 "e").2.1
      (by decide) rfl⟩

/-- C7 counterexample: with jitter enabled, initial_delay = max_delay = 8
and random draw 3/4 (jitter factor 9/8), the computed delay is 9, strictly
above max_delay — the claim that the delay never exceeds max_delay even
with jitter is false. -/
theorem calculateDelay_jitter_exceeds_max_cex :
    (⟨3, 8, 8, 2, true⟩ : RetryConfigR).maxDelay
      < calculateDelay 0 ⟨3, 8, 8, 2, true⟩ (3/4) := by
  norm_num [calculateDelay, add_jitter]

/-- C7 amended: the un-jittered delay equals
min(initial_delay * backoff_factor ^ attempt, max_delay), is monotonically
non-decreasing in attempt and never exceeds max_delay; with jitter enabled
the delay is that value multiplied by the factor 3/4 + rand/2 — a value in
[0.75, 1.25] for rand in [0,1] — and floored, and can therefore exceed
max_delay by up to 25% (it stays below 5/4 * max_delay); jittered delays
need not be monotone in attempt. -/
theorem calculateDelay_amended_behavior (cfg : RetryConfigR) (a : Nat)
    (r : Rat) (hd : 0 ≤ cfg.initialDelay) (hb : 1 ≤ cfg.backoffFactor)
    (hM : 0 ≤ cfg.maxDelay) (hr0 : 0 ≤ r) (hr1 : r ≤ 1) :
    (cfg.jitter = false →
      calculateDelay a cfg r
          = min (cfg.initialDelay * cfg.backoffFactor ^ a) cfg.maxDelay ∧
      calculateDelay a cfg r ≤ calculateDelay (a + 1) cfg r ∧
      calculateDelay a cfg r ≤ cfg.maxDelay) ∧
    (cfg.jitter = true →
      calculateDelay a cfg r
          = ((Int.floor
              (min (cfg.initialDelay * cfg.backoffFactor ^ a) cfg.maxDelay
                * (3/4 + r/2)) : Int) : Rat) ∧
      3/4 ≤ 3/4 + r/2 ∧ 3/4 + r/2 ≤ 5/4 ∧
      calculateDelay a cfg r ≤ 5/4 * cfg.maxDelay) := by
  have hpow : (0:Rat) ≤ cfg.backoffFactor ^ a :=
    pow_nonneg (le_trans zero_le_one hb) a
  have hD0 : (0:Rat)
      ≤ min (cfg.initialDelay * cfg.backoffFactor ^ a) cfg.maxDelay :=
    le_min (mul_nonneg hd hpow) hM
  have hDM : min (cfg.initialDelay * cfg.backoffFactor ^ a) cfg.maxDelay
      ≤ cfg.maxDelay := min_le_right _ _
  constructor
  · intro hj
    refine ⟨by simp [calculateDelay, hj], ?_, ?_⟩
    · simp only [calculateDelay, hj, if_false]
      exact min_le_min
        (mul_le_mul_of_nonneg_left (pow_le_pow_right₀ hb (Nat.le_succ a)) hd)
        le_rfl
    · simp only [calculateDelay, hj, if_false]
      exact hDM
  · intro hj
    have hform : calculateDelay a cfg r
        = ((Int.floor
            (min (cfg.initialDelay * cfg.backoffFactor ^ a) cfg.maxDelay
              * (3/4 + r/2)) : Int) : Rat) := by
      simp only [calculateDelay, hj, if_true, add_jitter]
      congr 2
      ring
    refine ⟨hform, by linarith, by linarith, ?_⟩
    rw [hform]
    have hfl := Int.floor_le
      (min (cfg.initialDelay * cfg.backoffFactor ^ a) cfg.maxDelay
        * (3/4 + r/2))
    have hmul : min (cfg.initialDelay * cfg.backoffFactor ^ a) cfg.maxDelay
        * (3/4 + r/2) ≤ cfg.maxDelay * (5/4) :=
      mul_le_mul hDM (by linarith) (by linarith) hM
    linarith

/-- Witness for the amended C7: without jitter the delay at attempt 1 stays
under the 10ms ceiling; with jitter, config ⟨3,8,8,2,true⟩ and draw 3/4
keep the delay below 5/4 of the ceiling. -/
theorem calculateDelay_amended_behavior_witness :
    (0:Rat) ≤ 1 ∧
    calculateDelay 1 ⟨3, 1, 10, 2, false⟩ 0
      ≤ (⟨3, 1, 10, 2, false⟩ : RetryConfigR).maxDelay ∧
    calculateDelay 0 ⟨3, 8, 8, 2, true⟩ (3/4)
      ≤ 5/4 * (⟨3, 8, 8, 2, true⟩ : RetryConfigR).maxDelay :=
  ⟨by norm_num,
    ((calculateDelay_amended_behavior ⟨3, 1, 10, 2, false⟩ 1 0 (by norm_num)
        (by norm_num) (by norm_num) (by norm_num) (by norm_num)).1 rfl).2.2,
    ((calculateDelay_amended_behavior ⟨3, 8, 8, 2, true⟩ 0 (3/4) (by norm_num)
        (by norm_num) (by norm_num) (by norm_num) (by norm_num)).2 rfl).2.2.2⟩

/-- Helper: `sequenceGo` over fulfilled operations accumulates their values
and one invocation each. -/
theorem sequenceGo_all_ok (vs : List α) :
    ∀ (acc : List α) (calls : Nat),
      sequenceGo (vs.map Except.ok) acc calls
        = (Result.ok (acc.reverse ++ vs), calls + vs.length) := by
  induction vs with
  | nil => intro acc calls; simp [sequenceGo]
  | cons v vs ih =>
    intro acc calls
    calc sequenceGo ((v :: vs).map Except.ok) acc calls
        = sequenceGo (vs.map Except.ok) (v :: acc) (calls + 1) := rfl
      _ = (Result.ok ((v :: acc).reverse ++ vs), calls + 1 + vs.length) :=
          ih (v :: acc) (calls + 1)
      _ = (Result.ok (acc.reverse ++ v :: vs), calls + (v :: vs).length) := by
          have harith : calls + 1 + vs.length = calls + (v :: vs).length := by
            simp only [List.length_cons]
            omega
          rw [List.reverse_cons, List.append_assoc, List.singleton_append,
            harith]

/-- Helper: `sequence` over a list of fulfilled operations succeeds with
their values in input order. -/
theorem sequence_all_ok (vs : List α) :
    sequence (vs.map Except.ok) = Result.ok vs := by
  have := sequenceGo_all_ok vs [] 0
  simp only [sequence, sequenceTrace, this]
  simp

/-- Helper: the first rejection in the list reaches the caller of
`sequence` as a failure value (the catch converts it), after the fulfilled
prefix. -/
theorem sequenceGo_first_rejection (vs : List α) (e : String)
    (rest : List (Except String α)) :
    ∀ (acc : List α) (calls : Nat),
      sequenceGo (vs.map Except.ok ++ Except.error e :: rest) acc calls
        = (Result.error e, calls + vs.length + 1) := by
  induction vs with
  | nil => intro acc calls; simp [sequenceGo]
  | cons v vs ih =>
    intro acc calls
    calc sequenceGo ((v :: vs).map Except.ok ++ Except.error e :: rest)
          acc calls
        = sequenceGo (vs.map Except.ok ++ Except.error e :: rest)
            (v :: acc) (calls + 1) := rfl
      _ = (Result.error e, calls + 1 + vs.length + 1) :=
          ih (v :: acc) (calls + 1)
      _ = (Result.error e, calls + (v :: vs).length + 1) := by
          have harith : calls + 1 + vs.length + 1
              = calls + (v :: vs).length + 1 := by
            simp only [List.length_cons]
            omega
          rw [harith]

/-- C4: for every list of operations that all succeed and every positive
concurrency limit, any completed parallel run — over ANY schedule, i.e.
regardless of completion order — returns a success holding, in original
input order, exactly the operations' outcomes, matching what sequence
returns on the same list (sequence yields the values, parallel the slots
embedding those values); and at every instant (after any schedule prefix)
the number of simultaneously unsettled operations is at most the limit. -/
theorem parallel_input_order_eq_sequence_and_bound (vs : List α)
    (limit : Nat) (hl : 1 ≤ limit) (sched : List Nat) :
    (∀ r, parallel (vs.map Except.ok) limit sched = some r →
      r = Result.ok (vs.map Except.ok) ∧
      sequence (vs.map Except.ok) = Result.ok vs) ∧
    busyCount
        (runSched (vs.map Except.ok) (initState (vs.map Except.ok) limit)
          sched)
      ≤ limit := by
  constructor
  · intro r h
    exact ⟨parallel_complete _ limit sched r hl h, sequence_all_ok vs⟩
  · have h1 := List.countP_le_length (fun o : Option Nat => o.isSome)
      (l := (runSched (vs.map Except.ok) (initState (vs.map Except.ok) limit)
        sched).workers)
    have h2 : (runSched (vs.map Except.ok)
          (initState (vs.map Except.ok) limit) sched).workers.length
        = min limit vs.length := by
      rw [runSched_workers_length]
      simp [initState]
    simp only [busyCount]
    omega

/-- Witness for C4: five always-successful operations, limit 2, and a
concrete completing schedule. -/
theorem parallel_input_order_eq_sequence_and_bound_witness :
    (1 : Nat) ≤ 2 ∧
    sequence (([1, 2, 3, 4, 5] : List Nat).map Except.ok)
      = Result.ok [1, 2, 3, 4, 5] ∧
    busyCount
        (runSched (([1, 2, 3, 4, 5] : List Nat).map Except.ok)
          (initState (([1, 2, 3, 4, 5] : List Nat).map Except.ok) 2)
          [0, 1, 0, 1, 0])
      ≤ 2 :=
  ⟨by decide,
    ((parallel_input_order_eq_sequence_and_bound [1, 2, 3, 4, 5] 2
        (by decide) [0, 1, 0, 1, 0]).1
      (Result.ok (([1, 2, 3, 4, 5] : List Nat).map Except.ok)) (by decide)).2,
    (parallel_input_order_eq_sequence_and_bound [1, 2, 3, 4, 5] 2
        (by decide) [0, 1, 0, 1, 0]).2⟩

/-- C5: for every list of operations, every positive concurrency limit and
every completing schedule, each operation's rejection is captured into that
operation's own result slot (the slot list equals the list of the
operations' own outcomes, keyed by original position), the batch is not
short-circuited, and the overall call returns a top-level success — never
a top-level failure. -/
theorem parallel_captures_failures_top_level_ok
    (ops : List (Except String α)) (limit : Nat) (sched : List Nat)
    (r : Result (List (Except String α)) String)
    (h : parallel ops limit sched = some r) (hl : 1 ≤ limit) :
    r = Result.ok ops ∧
    (∀ (i : Nat) (e : String), ops[i]? = some (Except.error e) →
      ∃ l, r = Result.ok l ∧ l[i]? = some (Except.error e)) ∧
    (∀ m : String, r ≠ Result.error m) := by
  have hr := parallel_complete ops limit sched r hl h
  refine ⟨hr, ?_, ?_⟩
  · intro i e hi
    exact ⟨ops, hr, hi⟩
  · intro m hm
    rw [hr] at hm
    cases hm

/-- Witness for C5: a batch whose middle operation rejects still completes
with the rejection captured in slot 1 and a top-level success. -/
theorem parallel_captures_failures_top_level_ok_witness :
    parallel [Except.ok 1, Except.error "boom", Except.ok 3] 2 [1, 0, 0, 1]
      = some (Result.ok [Except.ok 1, Except.error "boom", Except.ok 3]) ∧
    (Result.ok [Except.ok 1, Except.error "boom", Except.ok 3]
        : Result (List (Except String Nat)) String)
      ≠ Result.error "boom" :=
  ⟨by decide,
    (parallel_captures_failures_top_level_ok
        [Except.ok 1, Except.error "boom", Except.ok 3] 2 [1, 0, 0, 1]
        (Result.ok [Except.ok 1, Except.error "boom", Except.ok 3]) (by decide)
        (by decide)).2.2 "boom"⟩

/-- C8 amended: sequence and parallel convert a rejecting operation into a
failure value before it crosses the component boundary — sequence returns
the first rejection as the error of its Result, parallel captures each
rejection in the operation's own slot and still returns a top-level
success — but retry does NOT catch: an operation whose invocation rejects
makes retry itself reject, propagating the exception to the caller. -/
theorem exception_policy_amended (vs : List α) (e : String)
    (rest : List (Except String α)) (ops : List (Except String α))
    (limit : Nat) (sched : List Nat)
    (r : Result (List (Except String α)) String) (f : String)
    (opts : RetryOptions) :
    sequence (vs.map Except.ok ++ Except.error e :: rest)
        = Result.error e ∧
    (parallel ops limit sched = some r → 1 ≤ limit →
      r = Result.ok ops) ∧
    (1 ≤ opts.max_attempts →
      retry (T := T) (fun _ => Except.error f) opts
        = (Except.error f, 1)) := by
  refine ⟨?_, ?_, ?_⟩
  · have := sequenceGo_first_rejection vs e rest [] 0
    simp only [sequence, sequenceTrace, this]
  · intro h hl
    exact parallel_complete ops limit sched r hl h
  · intro h1
    obtain ⟨m, hm⟩ : ∃ m, opts.max_attempts = m + 1 :=
      ⟨opts.max_attempts - 1, by omega⟩
    simp [retry, hm, retryGo]

/-- Witness for the amended C8: a concrete rejection reaches the caller of
sequence as a failure value, a concrete one-slot batch with a rejecting
operation completes as a success, and retry of a rejecting operation
itself rejects after one invocation. -/
theorem exception_policy_amended_witness :
    sequence (([1] : List Nat).map Except.ok ++ Except.error "boom" :: [])
        = Result.error "boom" ∧
    (Result.ok [Except.error "x"] : Result (List (Except String Nat)) String)
        = Result.ok [Except.error "x"] ∧
    retry (T := Nat) (fun _ => Except.error "bang") ⟨3, 1, 10, 2⟩
        = (Except.error "bang", 1) :=
  ⟨(exception_policy_amended (T := Nat) [1] "boom" [] [Except.error "x"] 1 [0]
      (Result.ok [Except.error "x"]) "bang" ⟨3, 1, 10, 2⟩).1,
    (exception_policy_amended (T := Nat) [1] "boom" [] [Except.error "x"] 1 [0]
      (Result.ok [Except.error "x"]) "bang" ⟨3, 1, 10, 2⟩).2.1 rfl (by decide),
    (exception_policy_amended (T := Nat) [1] "boom" [] [Except.error "x"] 1 [0]
      (Result.ok [Except.error "x"]) "bang" ⟨3, 1, 10, 2⟩).2.2 (by decide)⟩

/-- C8 counterexample: an operation whose first invocation rejects with
"boom" makes retry itself reject with "boom" (the outer `Except.error`):
the exception crosses the retry boundary uncaught instead of being
converted into a failure `Result` value. -/
theorem retry_rejection_propagates_cex :
    retry (T := Nat) (fun _ => Except.error "boom") ⟨3, 1, 10, 2⟩
        = (Except.error "boom", 1) ∧
    ¬ ∃ r, (retry (T := Nat) (fun _ => Except.error "boom")
        ⟨3, 1, 10, 2⟩).1 = Except.ok r :=
  ⟨rfl, fun ⟨_, h⟩ => Except.noConfusion h⟩

end Ferrum
